import Mathlib

/- Shallow embedding of src/stable_baselines3/her/replay_buffer.py
(class HindsightExperienceReplayBuffer).  The source asserts n_envs == 1, so
the leading n_envs axis of every stored array is dropped throughout: an
observation value `Obs` here corresponds to `obs[0]` in the source.  Randomness
is modelled by passing the raw draws explicitly: a uniform integer draw from a
range of size d is `r % d` for an arbitrary `r : Nat`, and a uniform float draw
from [0, 1) is an arbitrary rational `u` with 0 ≤ u < 1. -/

namespace HER

/-- Goal selection strategies (class GoalSelectionStrategy, lines 13-29). -/
inductive GoalSelectionStrategy : Type
  | FUTURE
  | FINAL
  | EPISODE
  | RANDOM
deriving DecidableEq, Repr

/-- Structured observation, the dict form with keys observation, achieved_goal
and desired_goal produced by the external converter (spec section 6). -/
structure ObsDict (O G : Type) where
  observation : O
  achieved_goal : G
  desired_goal : G
deriving DecidableEq, Repr

instance {O G : Type} [Inhabited O] [Inhabited G] : Inhabited (ObsDict O G) :=
  ⟨⟨default, default, default⟩⟩

/-- The external goal-environment collaborator (self.env): the two converters
between flat observations and their dict form, and the task reward function
compute_reward (its info argument is always None in the source and is omitted
here). -/
structure GoalEnv (Obs O G R : Type) where
  convert_obs_to_dict : Obs → ObsDict O G
  convert_dict_to_obs : ObsDict O G → Obs
  compute_reward : G → G → R

/-- One transition (obs, next_obs, action, reward, done), the tuple appended to
self.episode_transitions by add (line 119). -/
structure Transition (Obs A R : Type) where
  obs : Obs
  next_obs : Obs
  action : A
  reward : R
  done : Bool
deriving DecidableEq, Repr

variable {Obs O G A R : Type}

/-- Embedding of _sample_achieved_goal (lines 306-332).  np.random.choice over
np.arange(lo, hi) is modelled as lo + r % (hi - lo) for the raw draw r; the
choice raises ValueError when the range is empty.  episode_transitions[-1]
raises IndexError on an empty list.  The returned goal is the achieved_goal of
the selected transition's obs field (selected_transition[0][0], line 332). -/
def sample_achieved_goal (env : GoalEnv Obs O G R) (strategy : GoalSelectionStrategy)
    (episode_transitions : List (Transition Obs A R)) (transition_idx : Nat)
    (r : Nat) : Except String G :=
  match strategy with
  | .FUTURE =>
      if transition_idx + 1 < episode_transitions.length then
        match episode_transitions[transition_idx + 1 +
            r % (episode_transitions.length - (transition_idx + 1))]? with
        | some selected_transition =>
            .ok (env.convert_obs_to_dict selected_transition.obs).achieved_goal
        | none => .error "IndexError"
      else .error "ValueError: a cannot be empty"
  | .FINAL =>
      match episode_transitions.getLast? with
      | some selected_transition =>
          .ok (env.convert_obs_to_dict selected_transition.obs).achieved_goal
      | none => .error "IndexError"
  | .EPISODE =>
      if 0 < episode_transitions.length then
        match episode_transitions[r % episode_transitions.length]? with
        | some selected_transition =>
            .ok (env.convert_obs_to_dict selected_transition.obs).achieved_goal
        | none => .error "IndexError"
      else .error "ValueError: a cannot be empty"
  | .RANDOM => .error "NotImplementedError"

/-- Embedding of the list comprehension in _sample_achieved_goals
(lines 301-304): draw goals one after the other; i is the index of the draw and
rs i its raw random value; the first exception aborts the comprehension. -/
def sample_goals_from (env : GoalEnv Obs O G R) (strategy : GoalSelectionStrategy)
    (episode_transitions : List (Transition Obs A R)) (transition_idx : Nat)
    (rs : Nat → Nat) : Nat → Nat → Except String (List G)
  | _, 0 => .ok []
  | i, k + 1 =>
      match sample_achieved_goal env strategy episode_transitions transition_idx (rs i) with
      | .error e => .error e
      | .ok g =>
          match sample_goals_from env strategy episode_transitions transition_idx rs (i + 1) k with
          | .error e => .error e
          | .ok gs => .ok (g :: gs)

/-- Embedding of _sample_achieved_goals (lines 292-304): n_sampled_goal draws. -/
def sample_achieved_goals (env : GoalEnv Obs O G R) (strategy : GoalSelectionStrategy)
    (episode_transitions : List (Transition Obs A R)) (transition_idx : Nat)
    (n_sampled_goal : Nat) (rs : Nat → Nat) : Except String (List G) :=
  sample_goals_from env strategy episode_transitions transition_idx rs 0 n_sampled_goal

/-- Body of the relabeling loop in _store_episode (lines 230-250): deep-copy
the transition (value copy, the identity in this embedding), convert obs and
next_obs to dict form, overwrite desired_goal in both with the sampled goal,
recompute the reward from the next observation's achieved goal and the new
goal, force done := false, convert back. -/
def make_her_transition (env : GoalEnv Obs O G R) (transition : Transition Obs A R)
    (goal : G) : Transition Obs A R :=
  let obs_dict := env.convert_obs_to_dict transition.obs
  let next_obs_dict := env.convert_obs_to_dict transition.next_obs
  let obs_dict := { obs_dict with desired_goal := goal }
  let next_obs_dict := { next_obs_dict with desired_goal := goal }
  { obs := env.convert_dict_to_obs obs_dict
    next_obs := env.convert_dict_to_obs next_obs_dict
    action := transition.action
    reward := env.compute_reward next_obs_dict.achieved_goal goal
    done := false }

/-- Eager-mode (add_her_while_sampling = False) buffer state.  The source keeps
five parallel numpy arrays observations / next_observations / actions /
rewards / dones of identical leading size buffer_size, all written at index pos
in the same _add_transition call (lines 264-268); the five cells of one index
are bundled here into one Transition, and each array is a fixed-length list. -/
structure FlatState (Obs A R : Type) where
  buffer_size : Nat
  goal_selection_strategy : GoalSelectionStrategy
  n_sampled_goal : Nat
  transitions : List (Transition Obs A R)
  pos : Nat
  full : Bool
  episode_transitions : List (Transition Obs A R)
deriving DecidableEq

/-- Embedding of _add_transition, flat branch (lines 263-273): write the five
fields at index pos, advance pos, and on reaching buffer_size set full and wrap
pos to 0. -/
def FlatState.add_transition (s : FlatState Obs A R) (tr : Transition Obs A R) :
    FlatState Obs A R :=
  let s := { s with transitions := s.transitions.set s.pos tr, pos := s.pos + 1 }
  if s.pos = s.buffer_size then { s with pos := 0, full := true } else s

/-- Fresh eager-mode buffer (constructor, lines 82-102); z is the zero element
the numpy arrays are initialised with (np.zeros). -/
def FlatState.init (buffer_size : Nat) (strategy : GoalSelectionStrategy)
    (n_sampled_goal : Nat) (z : Transition Obs A R) : FlatState Obs A R :=
  { buffer_size := buffer_size
    goal_selection_strategy := strategy
    n_sampled_goal := n_sampled_goal
    transitions := List.replicate buffer_size z
    pos := 0
    full := false
    episode_transitions := [] }

/-- Write trace of the eager branch of _store_episode (lines 213-250): the
sequence of _add_transition writes the loop performs, paired with the pending
exception if one is raised (the writes up to the raise point are kept, as the
exception propagates after they happened).  Sampling reads only the episode
list and the configuration, never the buffer arrays, so the loop is factored
as: compute the trace, then fold the writes over the state (store_episode
below).  all is self.episode_transitions; the loop walks its suffixes together
with the running transition_idx; rand i j is the raw random value of the j-th
goal draw for source transition i.  The break on lines 222-224 fires after the
raw write when transition_idx is the last index and the strategy is FUTURE. -/
def eager_write_trace (env : GoalEnv Obs O G R) (rand : Nat → Nat → Nat)
    (strategy : GoalSelectionStrategy) (n_sampled_goal : Nat)
    (all : List (Transition Obs A R)) :
    List (Transition Obs A R) → Nat → List (Transition Obs A R) × Option String
  | [], _ => ([], none)
  | transition :: rest, transition_idx =>
      if transition_idx = all.length - 1 ∧ strategy = .FUTURE then
        ([transition], none)
      else
        match sample_achieved_goals env strategy all transition_idx n_sampled_goal
            (rand transition_idx) with
        | .error e => ([transition], some e)
        | .ok sampled_goals =>
            let hers := sampled_goals.map (make_her_transition env transition)
            let next := eager_write_trace env rand strategy n_sampled_goal all rest
              (transition_idx + 1)
            (transition :: (hers ++ next.1), next.2)

/-- Embedding of _store_episode, eager branch (lines 213-250): fold the write
trace over the buffer state; the second component is the exception raised, if
any (the returned state is the state at the raise point). -/
def store_episode (env : GoalEnv Obs O G R) (rand : Nat → Nat → Nat)
    (s : FlatState Obs A R) : FlatState Obs A R × Option String :=
  let t := eager_write_trace env rand s.goal_selection_strategy s.n_sampled_goal
    s.episode_transitions s.episode_transitions 0
  (t.1.foldl FlatState.add_transition s, t.2)

/-- Embedding of add (lines 104-124) in eager mode: append the transition to
the episode accumulator; when done, flush via _store_episode and clear the
accumulator — but only when the flush did not raise, since an exception
propagates out of add before the reset on line 124. -/
def FlatState.add (env : GoalEnv Obs O G R) (rand : Nat → Nat → Nat)
    (s : FlatState Obs A R) (obs next_obs : Obs) (action : A) (reward : R)
    (done : Bool) : FlatState Obs A R × Option String :=
  let s := { s with episode_transitions :=
    s.episode_transitions ++ [⟨obs, next_obs, action, reward, done⟩] }
  if done then
    match store_episode env rand s with
    | (s2, none) => ({ s2 with episode_transitions := [] }, none)
    | (s2, some e) => (s2, some e)
  else (s, none)

/-- Minimal model of a numpy array as passed for obs to _add_transition in
per-episode mode: data lists the rows along axis 0, rowShape the common shape
of one row.  np.array of an empty list has shape (0,), hence ndim 1; a
nonempty stack of rows of shape sh has ndim sh.length + 1. -/
structure NpArray (α : Type) where
  data : List α
  rowShape : List Nat
deriving DecidableEq, Repr

/-- Number of dimensions, len(a.shape). -/
def NpArray.ndim {α : Type} (a : NpArray α) : Nat :=
  if a.data.isEmpty then 1 else a.rowShape.length + 1

/-- Slice assignment l[:new.length] = new of numpy on a fixed-length list:
positions below new.length take new's entries, the rest keep l.  (numpy
requires new to fit; all uses below do.) -/
def setSlice {α : Type} (l new : List α) : List α :=
  new.take l.length ++ l.drop new.length

/-- In-place update of one row of a fixed-length list (numpy row assignment at
one index). -/
def listModify {α : Type} (f : α → α) : List α → Nat → List α
  | [], _ => []
  | a :: l, 0 => f a :: l
  | a :: l, i + 1 => a :: listModify f l i

/-- One per-episode storage slot: the rows observations[pos, :],
actions[pos, :], rewards[pos, :], dones[pos, :] (observations has
max_episode_len + 1 columns, the others max_episode_len, lines 87-100).
n_episode_steps is a separate array in the source but is written at the same
index in the same call (line 285); it is bundled here as n_steps. -/
structure EpSlot (Obs A R : Type) where
  observations : List Obs
  actions : List A
  rewards : List R
  dones : List Bool
  n_steps : Nat
deriving DecidableEq

/-- Fresh slot: zero-initialised rows (np.zeros); dones are 0.0, i.e. false. -/
def EpSlot.init (max_episode_len : Nat) (zObs : Obs) (zA : A) (zR : R) :
    EpSlot Obs A R :=
  { observations := List.replicate (max_episode_len + 1) zObs
    actions := List.replicate max_episode_len zA
    rewards := List.replicate max_episode_len zR
    dones := List.replicate max_episode_len false
    n_steps := 0 }

/-- The slice writes of _add_transition's per-episode branch (lines 279-285):
observations[pos, :len+1] = obs rows followed by the last next_obs row, the
other rows get their first len entries overwritten, n_steps records len. -/
def writeSlot (slot : EpSlot Obs A R) (obsData : List Obs) (lastNext : Obs)
    (action : List A) (reward : List R) (done : List Bool) : EpSlot Obs A R :=
  { observations := setSlice slot.observations (obsData ++ [lastNext])
    actions := setSlice slot.actions action
    rewards := setSlice slot.rewards reward
    dones := setSlice slot.dones done
    n_steps := obsData.length }

/-- Lazy-mode (add_her_while_sampling = True) buffer state.  The episode
capacity is buffer_size // max_episode_len (lines 87-92). -/
structure EpState (Obs A R : Type) where
  buffer_size : Nat
  max_episode_len : Nat
  goal_selection_strategy : GoalSelectionStrategy
  n_sampled_goal : Nat
  slots : List (EpSlot Obs A R)
  pos : Nat
  full : Bool
deriving DecidableEq

/-- Fresh lazy-mode buffer (constructor, lines 86-101). -/
def EpState.init (buffer_size max_episode_len : Nat)
    (strategy : GoalSelectionStrategy) (n_sampled_goal : Nat)
    (zObs : Obs) (zA : A) (zR : R) : EpState Obs A R :=
  { buffer_size := buffer_size
    max_episode_len := max_episode_len
    goal_selection_strategy := strategy
    n_sampled_goal := n_sampled_goal
    slots := List.replicate (buffer_size / max_episode_len)
      (EpSlot.init max_episode_len zObs zA zR)
    pos := 0
    full := false }

/-- Embedding of _add_transition, per-episode branch (lines 274-290).  The
shape guard len(obs.shape) >= 2 precedes every mutation, so on its failure the
state is returned unchanged together with the error.  next_obs[-1] on an empty
next_obs would raise IndexError.  Otherwise the slot at pos is overwritten on
the episode's extent, pos advances and wraps at buffer_size // max_episode_len
setting full. -/
def EpState.add_transition (s : EpState Obs A R) (obs : NpArray Obs)
    (next_obs : List Obs) (action : List A) (reward : List R)
    (done : List Bool) : EpState Obs A R × Option String :=
  if 2 ≤ obs.ndim then
    match next_obs.getLast? with
    | none => (s, some "IndexError")
    | some last_next =>
        let s := { s with
          slots := listModify
            (fun slot => writeSlot slot obs.data last_next action reward done)
            s.slots s.pos
          pos := s.pos + 1 }
        if s.pos = s.buffer_size / s.max_episode_len then
          ({ s with pos := 0, full := true }, none)
        else (s, none)
  else (s, some "obs needs to be an episode of observations")

/-- One whole-episode write, the argument package _store_episode's lazy branch
(lines 252-255) hands to _add_transition: the zipped episode columns. -/
structure EpWrite (Obs A R : Type) where
  obs : NpArray Obs
  next_obs : List Obs
  action : List A
  reward : List R
  done : List Bool
deriving DecidableEq

/-- Episode length, len(obs) (line 276). -/
def EpWrite.len (w : EpWrite Obs A R) : Nat := w.obs.data.length

/-- Well-formed episode write for a buffer with episode cap maxLen: stacked
observations with at least two dimensions, a nonempty next_obs column, between
1 and maxLen steps, and matching column lengths. -/
abbrev EpWrite.WF (maxLen : Nat) (w : EpWrite Obs A R) : Prop :=
  2 ≤ w.obs.ndim ∧ w.next_obs ≠ [] ∧ 1 ≤ w.len ∧ w.len ≤ maxLen ∧
    w.next_obs.length = w.len ∧ w.action.length = w.len ∧
    w.reward.length = w.len ∧ w.done.length = w.len

/-- The observation row a whole-episode write stores: the episode's per-step
observations with the final next observation appended (line 279-280). -/
def EpWrite.obsRow (w : EpWrite Obs A R) : List Obs :=
  w.obs.data ++ w.next_obs.getLast?.toList

/-- State after a whole-episode write, discarding the (absent, for well-formed
writes) exception. -/
def EpState.add_write (s : EpState Obs A R) (w : EpWrite Obs A R) :
    EpState Obs A R :=
  (s.add_transition w.obs w.next_obs w.action w.reward w.done).1

/-- Slot i records episode w: its n_steps is w's length and its row prefixes up
to that length are w's columns (cells beyond the recorded length are padding,
possibly left over from an earlier occupant of the slot). -/
def EpSlot.holds (slot : EpSlot Obs A R) (w : EpWrite Obs A R) : Prop :=
  slot.n_steps = w.len ∧
    (∀ c < w.len + 1, slot.observations[c]? = w.obsRow[c]?) ∧
    (∀ c < w.len, slot.actions[c]? = w.action[c]?) ∧
    (∀ c < w.len, slot.rewards[c]? = w.reward[c]?) ∧
    (∀ c < w.len, slot.dones[c]? = w.done[c]?)

/-- Canonical row lengths of a slot in a buffer with episode cap maxLen. -/
abbrev EpSlot.dims (maxLen : Nat) (slot : EpSlot Obs A R) : Prop :=
  slot.observations.length = maxLen + 1 ∧ slot.actions.length = maxLen ∧
    slot.rewards.length = maxLen ∧ slot.dones.length = maxLen

/-- Strategy dispatch at the top of the lazy branch of _get_samples
(lines 142-156): only FUTURE computes future_p = 1 - 1/(1 + n_sampled_goal);
FINAL, EPISODE and RANDOM raise NotImplementedError. -/
def get_samples_future_p (strategy : GoalSelectionStrategy)
    (n_sampled_goal : Nat) : Except String ℚ :=
  match strategy with
  | .FUTURE => .ok (1 - 1 / (1 + (n_sampled_goal : ℚ)))
  | .FINAL => .error "NotImplementedError"
  | .EPISODE => .error "NotImplementedError"
  | .RANDOM => .error "NotImplementedError"

/-- Timestep draw of the lazy sampler (line 161):
np.floor(np.random.uniform(max_timestep_inds)).astype(int).  np.random.uniform
is called with low = L and the default high = 1.0, so the sampled value is
L + (1 - L) * u with u the underlying uniform draw in [0, 1). -/
def lazy_timestep (L : Nat) (u : ℚ) : Nat :=
  (Int.floor ((L : ℚ) + (1 - (L : ℚ)) * u)).toNat

/-- future_offset (lines 167-168): uniform(0,1) * (L - t), cast to int.  The
cast truncates toward zero; the value is nonnegative whenever t ≤ L, where
truncation and floor agree (and toNat sends both to 0 otherwise). -/
def lazy_future_offset (L t : Nat) (u : ℚ) : Nat :=
  (Int.floor (u * ((L : ℚ) - (t : ℚ)))).toNat

/-- future_t (line 169): timestep + 1 + future_offset. -/
def lazy_future_t (L t : Nat) (u : ℚ) : Nat := t + 1 + lazy_future_offset L t u

/-- One returned batch row of _get_samples (lines 131-136 and 184-190). -/
structure SampleRow (Obs A R : Type) where
  obs : Obs
  action : A
  next_obs : Obs
  done : Bool
  reward : R
deriving DecidableEq

/-- One batch row of the lazy branch of _get_samples (lines 158-190) for
strategy FUTURE.  Every vectorized operation there is row-independent, so the
row is computed from its own three uniform [0,1) draws: u_t for the timestep,
u_her for HER eligibility (u_her < future_p marks the row for relabeling,
line 166), u_off for the future offset.  future_ag is read before the
substitution (line 176); the substitution overwrites desired_goal at every
column of the row's episode (line 177); rewards are recomputed from the
substituted dicts and shifted by one column (lines 179-181), so the returned
reward is the full-reward column t + 1.  The returned done is the stored done
at column t (line 187).  In-range numpy indexing is modelled by l[i]!. -/
def get_sample_row [Inhabited Obs] [Inhabited O] [Inhabited G] [Inhabited A]
    (env : GoalEnv Obs O G R) (n_sampled_goal : Nat) (slot : EpSlot Obs A R)
    (u_t u_her u_off : ℚ) : SampleRow Obs A R :=
  let L := slot.n_steps
  let t := lazy_timestep L u_t
  let future_p : ℚ := 1 - 1 / (1 + (n_sampled_goal : ℚ))
  let her : Bool := u_her < future_p
  let future_t := lazy_future_t L t u_off
  let dicts := slot.observations.map env.convert_obs_to_dict
  let future_ag := (dicts[future_t]!).achieved_goal
  let dicts := if her then dicts.map (fun d => { d with desired_goal := future_ag })
    else dicts
  let obs := dicts.map env.convert_dict_to_obs
  { obs := obs[t]!
    action := slot.actions[t]!
    next_obs := obs[t + 1]!
    done := slot.dones[t]!
    reward := env.compute_reward (dicts[t + 1]!).achieved_goal
      (dicts[t + 1]!).desired_goal }

/-- Embedding of sample (lines 192-205): upper_bound is the full capacity
(buffer_size // max_episode_len in lazy mode, buffer_size in eager mode) when
full, else pos; np.random.randint(0, upper_bound, batch_size) raises ValueError
when upper_bound = 0, and otherwise the i-th drawn index is rand i %
upper_bound for the raw draw rand i. -/
def sample_batch_inds (buffer_size max_episode_len : Nat)
    (add_her_while_sampling : Bool) (full : Bool) (pos : Nat)
    (batch_size : Nat) (rand : Nat → Nat) : Except String (List Nat) :=
  let full_idx := if add_her_while_sampling then buffer_size / max_episode_len
    else buffer_size
  let upper_bound := if full then full_idx else pos
  if upper_bound = 0 then .error "ValueError: low >= high"
  else .ok ((List.range batch_size).map (fun i => rand i % upper_bound))

/-- Concrete instantiation used by witnesses and counterexamples: flat
observations are their own dict form (both converters are the identity), goals
and rewards are integers, and the reward is 0 on goal match and -1 otherwise. -/
abbrev ObsC : Type := ObsDict Int Int

/-- Concrete goal environment over ObsC. -/
def envC : GoalEnv ObsC Int Int Int :=
  { convert_obs_to_dict := fun o => o
    convert_dict_to_obs := fun d => d
    compute_reward := fun ag dg => if ag = dg then 0 else -1 }

/-- Zero transition, the initial content of the flat storage. -/
def zC : Transition ObsC Int Int := ⟨⟨0, 0, 0⟩, ⟨0, 0, 0⟩, 0, 0, false⟩

/-- Sample transition with achieved goal 5 (next: 7), desired goal 3. -/
def trC : Transition ObsC Int Int := ⟨⟨0, 5, 3⟩, ⟨0, 7, 3⟩, 11, 0, false⟩

/-- Sample terminal transition with achieved goal 7 (next: 9). -/
def trC2 : Transition ObsC Int Int := ⟨⟨0, 7, 3⟩, ⟨0, 9, 3⟩, 12, 0, true⟩

/-- Slot holding one stored episode of length 1 in a buffer with
max_episode_len 2: columns 0..1 are the episode (achieved goals 5 and 7),
column 2 is untouched zero padding. -/
def slotC1 : EpSlot ObsC Int Int :=
  { observations := [⟨0, 5, 3⟩, ⟨0, 7, 3⟩, ⟨0, 0, 0⟩]
    actions := [11, 0]
    rewards := [0, 0]
    dones := [true, false]
    n_steps := 1 }

/-- Slot holding a stored episode of length 2 whose last step has done =
true. -/
def slotC5 : EpSlot ObsC Int Int :=
  { observations := [⟨0, 5, 3⟩, ⟨0, 7, 3⟩, ⟨0, 9, 3⟩]
    actions := [11, 12]
    rewards := [0, 0]
    dones := [false, true]
    n_steps := 2 }

/-- Concrete lazy-mode state: buffer_size 4, max_episode_len 2 (capacity 2). -/
def epStateC : EpState ObsC Int Int :=
  EpState.init 4 2 .FUTURE 4 ⟨0, 0, 0⟩ 0 0

/-- Concrete well-formed whole-episode write of length 2. -/
def epWriteC : EpWrite ObsC Int Int :=
  { obs := ⟨[⟨0, 5, 3⟩, ⟨0, 7, 3⟩], [1, 3]⟩
    next_obs := [⟨0, 7, 3⟩, ⟨0, 9, 3⟩]
    action := [11, 12]
    reward := [0, 0]
    done := [false, true] }

/-- Concrete malformed obs argument: np.array([]) with shape (0,), ndim 1. -/
def badObsC : NpArray ObsC := ⟨[], []⟩

/-! Helper lemmas about the ring-buffer position arithmetic and the flat
write. -/

theorem succ_mod_ring (k C : Nat) (hC : 0 < C) :
    (k + 1) % C = if k % C + 1 = C then 0 else k % C + 1 := by
  have h1 : (k + 1) % C = (k % C + 1) % C := by
    conv_lhs => rw [show k + 1 = C * (k / C) + (k % C + 1) by
      have := Nat.div_add_mod k C; omega]
    rw [Nat.mul_add_mod]
  rw [h1]
  by_cases h : k % C + 1 = C
  · simp [h, Nat.mod_self]
  · have hlt : k % C < C := Nat.mod_lt _ hC
    rw [if_neg h]
    exact Nat.mod_eq_of_lt (by omega)

theorem list_getElem?_set_self {α : Type} (l : List α) (i : Nat) (a : α)
    (h : i < l.length) : (l.set i a)[i]? = some a := by
  simp [List.getElem?_set_self', List.getElem?_eq_getElem, h]

theorem add_transition_eq (s : FlatState Obs A R) (tr : Transition Obs A R) :
    s.add_transition tr =
      { s with transitions := s.transitions.set s.pos tr
               pos := if s.pos + 1 = s.buffer_size then 0 else s.pos + 1
               full := s.full || decide (s.pos + 1 = s.buffer_size) } := by
  unfold FlatState.add_transition
  by_cases h : s.pos + 1 = s.buffer_size
  · simp [h]
  · simp [h]

theorem flat_fold_invariant (C : Nat) (hC : 0 < C)
    (strategy : GoalSelectionStrategy) (n : Nat) (z : Transition Obs A R)
    (ws : List (Transition Obs A R)) :
    (ws.foldl FlatState.add_transition (FlatState.init C strategy n z)).buffer_size = C ∧
    (ws.foldl FlatState.add_transition (FlatState.init C strategy n z)).transitions.length = C ∧
    (ws.foldl FlatState.add_transition (FlatState.init C strategy n z)).pos = ws.length % C ∧
    (ws.foldl FlatState.add_transition (FlatState.init C strategy n z)).full = decide (C ≤ ws.length) ∧
    ∀ i < C,
      ((∀ j < ws.length, j % C ≠ i) ∧
        (ws.foldl FlatState.add_transition (FlatState.init C strategy n z)).transitions[i]? = some z) ∨
      (∃ j, j < ws.length ∧ j % C = i ∧ (∀ j2, j < j2 → j2 < ws.length → j2 % C ≠ i) ∧
        (ws.foldl FlatState.add_transition (FlatState.init C strategy n z)).transitions[i]? = ws[j]?) := by
  induction ws using List.reverseRecOn with
  | nil =>
      refine ⟨rfl, by simp [FlatState.init], by simp [FlatState.init], ?_, ?_⟩
      · have h0 : ¬ (C ≤ 0) := by omega
        simp [FlatState.init, h0]
      · intro i hi
        exact Or.inl ⟨fun j hj => by simp at hj,
          by simp [FlatState.init, List.getElem?_replicate, hi]⟩
  | append_singleton ws w ih =>
      rw [List.foldl_append]
      obtain ⟨ihb, ihl, ihp, ihf, ihs⟩ := ih
      rw [show (ws ++ [w]).length = ws.length + 1 by simp]
      rw [show ([w]).foldl FlatState.add_transition
        (ws.foldl FlatState.add_transition (FlatState.init C strategy n z)) =
        (ws.foldl FlatState.add_transition (FlatState.init C strategy n z)).add_transition w from rfl]
      rw [add_transition_eq]
      refine ⟨ihb, by simpa using ihl, ?_, ?_, ?_⟩
      · show (if _ + 1 = _ then 0 else _) = _
        rw [ihp, ihb, succ_mod_ring ws.length C hC]
      · show (_ || _) = _
        rw [ihp, ihb, ihf]
        have hm2 : ws.length % C < C := Nat.mod_lt _ hC
        have hm3 : ws.length % C ≤ ws.length := Nat.mod_le ws.length C
        apply Bool.coe_iff_coe.mp
        simp only [Bool.or_eq_true, decide_eq_true_eq]
        rcases Nat.lt_or_ge ws.length C with hlt | hge
        · rw [Nat.mod_eq_of_lt hlt]
          omega
        · omega
      · intro i hi
        show _ ∨ (∃ j, _ ∧ _ ∧ _ ∧ (List.set _ _ _)[i]? = (ws ++ [w])[j]?)
        rw [ihp, ihb]
        by_cases hieq : i = ws.length % C
        · refine Or.inr ⟨ws.length, by omega, hieq.symm, by omega, ?_⟩
          rw [hieq, list_getElem?_set_self _ _ _ (by rw [ihl]; exact Nat.mod_lt _ hC),
            List.getElem?_concat_length]
        · have hne : ws.length % C ≠ i := fun h => hieq h.symm
          rw [List.getElem?_set_ne hne]
          rcases ihs i hi with ⟨hnone, hval⟩ | ⟨j, hj, hjc, hmax, hval⟩
          · refine Or.inl ⟨?_, hval⟩
            intro j hj
            rcases Nat.lt_or_ge j ws.length with h | h
            · exact hnone j h
            · have : j = ws.length := by omega
              subst this
              exact hne
          · refine Or.inr ⟨j, by omega, hjc, ?_, ?_⟩
            · intro j2 hj2a hj2b
              rcases Nat.lt_or_ge j2 ws.length with h | h
              · exact hmax j2 hj2a h
              · have : j2 = ws.length := by omega
                subst this
                exact hne
            · rw [hval, List.getElem?_append_left hj]

/-! Helper lemmas about the eager relabeling loop. -/

theorem sample_achieved_goal_future_ok (env : GoalEnv Obs O G R)
    (eps : List (Transition Obs A R)) (t r : Nat) (h : t + 1 < eps.length) :
    ∃ j tr_j, t < j ∧ j < eps.length ∧ eps[j]? = some tr_j ∧
      sample_achieved_goal env .FUTURE eps t r =
        .ok (env.convert_obs_to_dict tr_j.obs).achieved_goal := by
  have hd : 0 < eps.length - (t + 1) := by omega
  have hidx : t + 1 + r % (eps.length - (t + 1)) < eps.length := by
    have := Nat.mod_lt r hd
    omega
  obtain ⟨a, ha⟩ : ∃ a, eps[t + 1 + r % (eps.length - (t + 1))]? = some a :=
    ⟨_, List.getElem?_eq_getElem hidx⟩
  refine ⟨t + 1 + r % (eps.length - (t + 1)), a, by omega, hidx, ha, ?_⟩
  simp [sample_achieved_goal, h, ha]

theorem sample_goals_from_future_ok (env : GoalEnv Obs O G R)
    (eps : List (Transition Obs A R)) (t : Nat) (rs : Nat → Nat)
    (h : t + 1 < eps.length) :
    ∀ k i, ∃ gs, sample_goals_from env .FUTURE eps t rs i k = .ok gs ∧
      gs.length = k := by
  intro k
  induction k with
  | zero => exact fun i => ⟨[], rfl, rfl⟩
  | succ k ihk =>
      intro i
      obtain ⟨j, trj, _, _, _, hok⟩ := sample_achieved_goal_future_ok env eps t (rs i) h
      obtain ⟨gs, hgs, hlen⟩ := ihk (i + 1)
      exact ⟨(env.convert_obs_to_dict trj.obs).achieved_goal :: gs,
        by simp [sample_goals_from, hok, hgs], by simp [hlen]⟩

theorem sample_achieved_goals_future_ok (env : GoalEnv Obs O G R)
    (eps : List (Transition Obs A R)) (t : Nat) (n : Nat) (rs : Nat → Nat)
    (h : t + 1 < eps.length) :
    ∃ gs, sample_achieved_goals env .FUTURE eps t n rs = .ok gs ∧
      gs.length = n :=
  sample_goals_from_future_ok env eps t rs h n 0

theorem eager_trace_future_count (env : GoalEnv Obs O G R) (rand : Nat → Nat → Nat)
    (n : Nat) (all : List (Transition Obs A R)) :
    ∀ rest idx, rest ≠ [] → idx + rest.length = all.length →
      (eager_write_trace env rand .FUTURE n all rest idx).2 = none ∧
      (eager_write_trace env rand .FUTURE n all rest idx).1.length =
        rest.length + (rest.length - 1) * n := by
  intro rest
  induction rest with
  | nil => exact fun idx h => absurd rfl h
  | cons tr rest ihr =>
      intro idx hne hlen
      simp only [List.length_cons] at hlen
      by_cases hlast : rest = []
      · subst hlast
        have hidx : idx = all.length - 1 := by simp at hlen; omega
        simp [eager_write_trace, hidx]
      · have hrpos : 0 < rest.length := List.length_pos.mpr hlast
        have hki : ¬ (idx = all.length - 1) := by omega
        obtain ⟨gs, hgs, hglen⟩ := sample_achieved_goals_future_ok env all idx n
          (rand idx) (by omega)
        obtain ⟨ihe, ihl⟩ := ihr (idx + 1) hlast (by omega)
        have hstep : eager_write_trace env rand .FUTURE n all (tr :: rest) idx =
            (tr :: (gs.map (make_her_transition env tr) ++
              (eager_write_trace env rand .FUTURE n all rest (idx + 1)).1),
             (eager_write_trace env rand .FUTURE n all rest (idx + 1)).2) := by
          simp [eager_write_trace, hki, hgs]
        rw [hstep]
        refine ⟨ihe, ?_⟩
        simp only [List.length_cons, List.length_append, List.length_map, hglen,
          ihl]
        obtain ⟨p, hp⟩ : ∃ p, rest.length = p + 1 := ⟨rest.length - 1, by omega⟩
        rw [hp]
        simp only [Nat.add_sub_cancel]
        rw [Nat.succ_mul]
        omega

theorem eager_trace_random (env : GoalEnv Obs O G R) (rand : Nat → Nat → Nat)
    (n : Nat) (hn : 1 ≤ n) (all : List (Transition Obs A R))
    (tr : Transition Obs A R) (rest : List (Transition Obs A R)) (idx : Nat) :
    eager_write_trace env rand .RANDOM n all (tr :: rest) idx =
      ([tr], some "NotImplementedError") := by
  have hcond : ¬ (idx = all.length - 1 ∧
      GoalSelectionStrategy.RANDOM = GoalSelectionStrategy.FUTURE) := by simp
  obtain ⟨m, hm⟩ : ∃ m, n = m + 1 := ⟨n - 1, by omega⟩
  simp [eager_write_trace, hcond, sample_achieved_goals, hm, sample_goals_from,
    sample_achieved_goal]

theorem foldl_add_transition_episode (s : FlatState Obs A R)
    (l : List (Transition Obs A R)) :
    (l.foldl FlatState.add_transition s).episode_transitions =
      s.episode_transitions := by
  induction l generalizing s with
  | nil => rfl
  | cons a l ih =>
      rw [List.foldl_cons, ih, add_transition_eq]

/-! Helper lemmas about the per-episode storage. -/

theorem listModify_length {α : Type} (f : α → α) (l : List α) (i : Nat) :
    (listModify f l i).length = l.length := by
  induction l generalizing i with
  | nil => rfl
  | cons a l ih =>
      cases i with
      | zero => rfl
      | succ i => simp [listModify, ih]

theorem listModify_getElem?_self {α : Type} (f : α → α) (l : List α) (i : Nat) :
    (listModify f l i)[i]? = (l[i]?).map f := by
  induction l generalizing i with
  | nil => simp [listModify]
  | cons a l ih =>
      cases i with
      | zero => simp [listModify]
      | succ i => simpa [listModify] using ih i

theorem listModify_getElem?_ne {α : Type} (f : α → α) (l : List α) (i j : Nat)
    (h : i ≠ j) : (listModify f l i)[j]? = l[j]? := by
  induction l generalizing i j with
  | nil => rfl
  | cons a l ih =>
      cases i with
      | zero =>
          cases j with
          | zero => exact absurd rfl h
          | succ j => simp [listModify]
      | succ i =>
          cases j with
          | zero => simp [listModify]
          | succ j => simpa [listModify] using ih i j (by omega)

theorem setSlice_length {α : Type} (l new : List α)
    (h : new.length ≤ l.length) : (setSlice l new).length = l.length := by
  unfold setSlice
  rw [List.length_append, List.length_take, List.length_drop]
  omega

theorem setSlice_getElem?_lt {α : Type} (l new : List α)
    (h : new.length ≤ l.length) (i : Nat) (hi : i < new.length) :
    (setSlice l new)[i]? = new[i]? := by
  unfold setSlice
  rw [List.getElem?_append_left (by rw [List.length_take]; omega)]
  rw [List.getElem?_take, if_pos (by omega)]

theorem setSlice_getElem?_ge {α : Type} (l new : List α)
    (h : new.length ≤ l.length) (i : Nat) (hi : new.length ≤ i) :
    (setSlice l new)[i]? = l[i]? := by
  unfold setSlice
  rw [List.getElem?_append_right (by rw [List.length_take]; omega)]
  rw [List.getElem?_drop]
  congr 1
  rw [List.length_take]
  omega

theorem writeSlot_holds (slot : EpSlot Obs A R) (w : EpWrite Obs A R)
    (maxLen : Nat) (hWF : w.WF maxLen) (hdims : slot.dims maxLen)
    (lastNext : Obs) (hlast : w.next_obs.getLast? = some lastNext) :
    (writeSlot slot w.obs.data lastNext w.action w.reward w.done).holds w ∧
    (writeSlot slot w.obs.data lastNext w.action w.reward w.done).dims maxLen := by
  obtain ⟨hndim, hne, hlen1, hlenM, hlnext, hlact, hlrew, hldon⟩ := hWF
  obtain ⟨hdo, hda, hdr, hdd⟩ := hdims
  have hrow : w.obsRow = w.obs.data ++ [lastNext] := by
    unfold EpWrite.obsRow; rw [hlast]; rfl
  have hrowlen : (w.obs.data ++ [lastNext]).length = w.len + 1 := by
    simp [EpWrite.len]
  constructor
  · refine ⟨rfl, ?_, ?_, ?_, ?_⟩
    · intro c hc
      rw [hrow]
      exact setSlice_getElem?_lt _ _ (by rw [hrowlen, hdo]; omega) c
        (by rw [hrowlen]; omega)
    · intro c hc
      exact setSlice_getElem?_lt _ _ (by rw [hlact, hda]; omega) c
        (by rw [hlact]; omega)
    · intro c hc
      exact setSlice_getElem?_lt _ _ (by rw [hlrew, hdr]; omega) c
        (by rw [hlrew]; omega)
    · intro c hc
      exact setSlice_getElem?_lt _ _ (by rw [hldon, hdd]; omega) c
        (by rw [hldon]; omega)
  · refine ⟨?_, ?_, ?_, ?_⟩
    · rw [show (writeSlot slot w.obs.data lastNext w.action w.reward w.done).observations =
        setSlice slot.observations (w.obs.data ++ [lastNext]) from rfl]
      rw [setSlice_length _ _ (by rw [hrowlen, hdo]; omega), hdo]
    · rw [show (writeSlot slot w.obs.data lastNext w.action w.reward w.done).actions =
        setSlice slot.actions w.action from rfl]
      rw [setSlice_length _ _ (by rw [hlact, hda]; omega), hda]
    · rw [show (writeSlot slot w.obs.data lastNext w.action w.reward w.done).rewards =
        setSlice slot.rewards w.reward from rfl]
      rw [setSlice_length _ _ (by rw [hlrew, hdr]; omega), hdr]
    · rw [show (writeSlot slot w.obs.data lastNext w.action w.reward w.done).dones =
        setSlice slot.dones w.done from rfl]
      rw [setSlice_length _ _ (by rw [hldon, hdd]; omega), hdd]

theorem ep_add_transition_WF (s : EpState Obs A R) (w : EpWrite Obs A R)
    (maxLen : Nat) (hWF : w.WF maxLen) :
    (s.add_transition w.obs w.next_obs w.action w.reward w.done).2 = none ∧
    ∃ lastNext, w.next_obs.getLast? = some lastNext ∧
      s.add_write w = { s with
        slots := listModify
          (fun slot => writeSlot slot w.obs.data lastNext w.action w.reward w.done)
          s.slots s.pos
        pos := if s.pos + 1 = s.buffer_size / s.max_episode_len then 0
          else s.pos + 1
        full := s.full || decide (s.pos + 1 = s.buffer_size / s.max_episode_len) } := by
  obtain ⟨hndim, hne, _⟩ := hWF
  obtain ⟨lastNext, hlast⟩ : ∃ a, w.next_obs.getLast? = some a := by
    cases hl : w.next_obs.getLast? with
    | none => exact absurd (List.getLast?_eq_none_iff.mp hl) hne
    | some a => exact ⟨a, rfl⟩
  unfold EpState.add_write EpState.add_transition
  rw [if_pos hndim, hlast]
  refine ⟨?_, lastNext, rfl, ?_⟩
  · by_cases h : s.pos + 1 = s.buffer_size / s.max_episode_len
    · simp [h]
    · simp [h]
  · by_cases h : s.pos + 1 = s.buffer_size / s.max_episode_len
    · simp [h, writeSlot]
    · simp [h, writeSlot]

theorem ep_init_slot_dims (M : Nat) (zObs : Obs) (zA : A) (zR : R) :
    (EpSlot.init M zObs zA zR : EpSlot Obs A R).dims M := by
  refine ⟨?_, ?_, ?_, ?_⟩ <;> simp [EpSlot.init]

theorem ep_fold_invariant (B M : Nat) (hC : 0 < B / M)
    (strategy : GoalSelectionStrategy) (n : Nat) (zObs : Obs) (zA : A) (zR : R)
    (ws : List (EpWrite Obs A R)) (hWF : ∀ w ∈ ws, w.WF M) :
    (ws.foldl EpState.add_write (EpState.init B M strategy n zObs zA zR)).buffer_size = B ∧
    (ws.foldl EpState.add_write (EpState.init B M strategy n zObs zA zR)).max_episode_len = M ∧
    (ws.foldl EpState.add_write (EpState.init B M strategy n zObs zA zR)).slots.length = B / M ∧
    (ws.foldl EpState.add_write (EpState.init B M strategy n zObs zA zR)).pos = ws.length % (B / M) ∧
    (ws.foldl EpState.add_write (EpState.init B M strategy n zObs zA zR)).full = decide (B / M ≤ ws.length) ∧
    (∀ (i : Nat) (slot : EpSlot Obs A R),
      (ws.foldl EpState.add_write (EpState.init B M strategy n zObs zA zR)).slots[i]? = some slot →
      slot.dims M) ∧
    ∀ i < B / M,
      ((∀ j < ws.length, j % (B / M) ≠ i) ∧
        (ws.foldl EpState.add_write (EpState.init B M strategy n zObs zA zR)).slots[i]? =
          some (EpSlot.init M zObs zA zR)) ∨
      (∃ j, j < ws.length ∧ j % (B / M) = i ∧
        (∀ j2, j < j2 → j2 < ws.length → j2 % (B / M) ≠ i) ∧
        ∃ (slot : EpSlot Obs A R) (w2 : EpWrite Obs A R),
          (ws.foldl EpState.add_write (EpState.init B M strategy n zObs zA zR)).slots[i]? = some slot ∧
          ws[j]? = some w2 ∧ slot.holds w2) := by
  induction ws using List.reverseRecOn with
  | nil =>
      refine ⟨rfl, rfl, by simp [EpState.init], by simp [EpState.init], ?_, ?_, ?_⟩
      · have h0 : ¬ (B / M ≤ 0) := by omega
        simp [EpState.init, h0]
      · intro i slot hslot
        simp only [EpState.init, List.foldl_nil, List.getElem?_replicate] at hslot
        split at hslot
        · obtain rfl : EpSlot.init M zObs zA zR = slot := by
            exact Option.some_injective _ hslot
          exact ep_init_slot_dims M zObs zA zR
        · exact absurd hslot (by simp)
      · intro i hi
        exact Or.inl ⟨fun j hj => by simp at hj,
          by simp [EpState.init, List.getElem?_replicate, hi]⟩
  | append_singleton ws w ihw =>
      specialize ihw (fun x hx => hWF x (List.mem_append_left _ hx))
      have hw : w.WF M := hWF w (List.mem_append_right _ (by simp))
      obtain ⟨ihb, ihm, ihl, ihp, ihf, ihd, ihs⟩ := ihw
      obtain ⟨henone, lastNext, hlast, hstep⟩ :=
        ep_add_transition_WF (ws.foldl EpState.add_write (EpState.init B M strategy n zObs zA zR)) w M hw
      rw [List.foldl_append]
      simp only [List.foldl_cons, List.foldl_nil]
      rw [hstep, show (ws ++ [w]).length = ws.length + 1 by simp]
      dsimp only
      refine ⟨ihb, ihm, ?_, ?_, ?_, ?_, ?_⟩
      · rw [listModify_length]
        exact ihl
      · rw [ihp, ihb, ihm, succ_mod_ring ws.length (B / M) hC]
      · rw [ihp, ihb, ihm, ihf]
        have hm2 : ws.length % (B / M) < B / M := Nat.mod_lt _ hC
        have hm3 : ws.length % (B / M) ≤ ws.length := Nat.mod_le ws.length (B / M)
        apply Bool.coe_iff_coe.mp
        simp only [Bool.or_eq_true, decide_eq_true_eq]
        rcases Nat.lt_or_ge ws.length (B / M) with hlt | hge
        · rw [Nat.mod_eq_of_lt hlt]
          omega
        · omega
      · intro i slot hslot
        by_cases hieq : (ws.foldl EpState.add_write (EpState.init B M strategy n zObs zA zR)).pos = i
        · rw [← hieq, listModify_getElem?_self] at hslot
          obtain ⟨old, hold, hfold⟩ := Option.map_eq_some'.mp hslot
          rw [← hfold]
          exact (writeSlot_holds old w M hw (ihd _ old hold) lastNext hlast).2
        · rw [listModify_getElem?_ne _ _ _ _ hieq] at hslot
          exact ihd i slot hslot
      · intro i hi
        rw [ihp]
        by_cases hieq : i = ws.length % (B / M)
        · refine Or.inr ⟨ws.length, by omega, hieq.symm, by omega, ?_⟩
          obtain ⟨old, hold⟩ : ∃ old,
              (ws.foldl EpState.add_write (EpState.init B M strategy n zObs zA zR)).slots[i]? = some old := by
            refine ⟨_, List.getElem?_eq_getElem ?_⟩
            rw [ihl]
            exact hi
          refine ⟨writeSlot old w.obs.data lastNext w.action w.reward w.done, w, ?_, ?_, ?_⟩
          · rw [hieq, listModify_getElem?_self, ← hieq, hold]
            rfl
          · exact List.getElem?_concat_length ws w
          · exact (writeSlot_holds old w M hw (ihd _ old hold) lastNext hlast).1
        · have hne : ws.length % (B / M) ≠ i := fun h => hieq h.symm
          rw [listModify_getElem?_ne _ _ _ _ hne]
          rcases ihs i hi with ⟨hnone, hval⟩ | ⟨j, hj, hjc, hmax, slot, w2, hval, hw2, hholds⟩
          · refine Or.inl ⟨?_, hval⟩
            intro j hj
            rcases Nat.lt_or_ge j ws.length with h | h
            · exact hnone j h
            · have : j = ws.length := by omega
              subst this
              exact hne
          · refine Or.inr ⟨j, by omega, hjc, ?_, slot, w2, hval, ?_, hholds⟩
            · intro j2 hj2a hj2b
              rcases Nat.lt_or_ge j2 ws.length with h | h
              · exact hmax j2 hj2a h
              · have : j2 = ws.length := by omega
                subst this
                exact hne
            · rw [List.getElem?_append_left hj]
              exact hw2

/-! Helper lemmas about the lazy sampler's index arithmetic. -/

theorem lazy_timestep_le (L : Nat) (u : ℚ) (h0 : 0 ≤ u) (h1 : u < 1) :
    lazy_timestep L u ≤ L := by
  unfold lazy_timestep
  have hcast : (0 : ℚ) ≤ (L : ℚ) := by positivity
  have hlt : Int.floor ((L : ℚ) + (1 - (L : ℚ)) * u) < (L : ℤ) + 1 := by
    rw [Int.floor_lt]
    push_cast
    nlinarith
  omega

theorem lazy_timestep_pos (L : Nat) (u : ℚ) (h1 : u < 1) (hL : 1 ≤ L) :
    1 ≤ lazy_timestep L u := by
  unfold lazy_timestep
  have hcast : (1 : ℚ) ≤ (L : ℚ) := by exact_mod_cast hL
  have hge : (1 : ℤ) ≤ Int.floor ((L : ℚ) + (1 - (L : ℚ)) * u) := by
    rw [Int.le_floor]
    push_cast
    nlinarith
  omega

theorem lazy_future_offset_lt (L t : Nat) (u : ℚ) (h0 : 0 ≤ u) (h1 : u < 1)
    (hlt : t < L) : lazy_future_offset L t u < L - t := by
  unfold lazy_future_offset
  have hd : (0 : ℚ) < (L : ℚ) - (t : ℚ) := by
    have : (t : ℚ) < (L : ℚ) := by exact_mod_cast hlt
    linarith
  have hf : Int.floor (u * ((L : ℚ) - (t : ℚ))) < (L : ℤ) - (t : ℤ) := by
    rw [Int.floor_lt]
    push_cast
    nlinarith
  omega

theorem list_getElem!_map {α β : Type} [Inhabited α] [Inhabited β] (f : α → β)
    (l : List α) (i : Nat) (h : i < l.length) : (l.map f)[i]! = f (l[i]!) := by
  rw [getElem!_pos (l.map f) i (by simpa using h), getElem!_pos l i h]
  simp

theorem get_sample_row_her [Inhabited Obs] [Inhabited O] [Inhabited G]
    [Inhabited A] (env : GoalEnv Obs O G R) (n : Nat) (slot : EpSlot Obs A R)
    (u_t u_her u_off : ℚ) (hher : u_her < 1 - 1 / (1 + (n : ℚ)))
    (ht1 : lazy_timestep slot.n_steps u_t + 1 < slot.observations.length)
    (hft : lazy_future_t slot.n_steps (lazy_timestep slot.n_steps u_t) u_off <
      slot.observations.length) :
    (get_sample_row env n slot u_t u_her u_off).next_obs =
      env.convert_dict_to_obs
        { env.convert_obs_to_dict
            (slot.observations[lazy_timestep slot.n_steps u_t + 1]!) with
          desired_goal := (env.convert_obs_to_dict
            (slot.observations[lazy_future_t slot.n_steps
              (lazy_timestep slot.n_steps u_t) u_off]!)).achieved_goal } ∧
    (get_sample_row env n slot u_t u_her u_off).reward =
      env.compute_reward
        (env.convert_obs_to_dict
          (slot.observations[lazy_timestep slot.n_steps u_t + 1]!)).achieved_goal
        (env.convert_obs_to_dict
          (slot.observations[lazy_future_t slot.n_steps
            (lazy_timestep slot.n_steps u_t) u_off]!)).achieved_goal := by
  have hd : decide (u_her < 1 - 1 / (1 + (n : ℚ))) = true := decide_eq_true hher
  have hlen1 : lazy_timestep slot.n_steps u_t + 1 <
      (slot.observations.map env.convert_obs_to_dict).length := by simpa using ht1
  constructor
  · simp only [get_sample_row, hd, eq_self_iff_true, if_true]
    rw [list_getElem!_map env.convert_dict_to_obs _ _ (by simpa using ht1),
      list_getElem!_map _ _ _ hlen1,
      list_getElem!_map env.convert_obs_to_dict _ _ ht1,
      list_getElem!_map env.convert_obs_to_dict _ _ hft]
  · simp only [get_sample_row, hd, eq_self_iff_true, if_true]
    rw [list_getElem!_map _ _ _ hlen1,
      list_getElem!_map env.convert_obs_to_dict _ _ ht1,
      list_getElem!_map env.convert_obs_to_dict _ _ hft]

/-! Claim theorems. -/

/-- C1 (amended): for strategy FUTURE, (i) an eager-mode goal sample for source
index t (which succeeds exactly when t + 1 < L) returns the achieved_goal of a
transition strictly later than t in the same episode, drawn uniformly from
indices t+1..L-1; (ii) when the eager flush loop reaches the episode's final
index under FUTURE it stores only the raw transition and breaks, so relabeling
is never applied to the final transition; (iii) in lazy mode
future_t = t + 1 + floor(u * (L - t)) lies in [t + 1, L] whenever the sampled
timestep t is a valid transition index (t < L); (iv) however the lazy timestep
draw floor(uniform(L, 1)) yields t in [1, L] (never 0; for L ≥ 1), so t = L is
possible — deterministically so for L = 1 — in which case (iii)'s guard fails
and the substituted goal is read past the episode's transitions (see the
counterexample). -/
theorem C1_future_goal_validity :
    (∀ (env : GoalEnv Obs O G R) (eps : List (Transition Obs A R)) (t r : Nat),
      t + 1 < eps.length →
      ∃ j tr_j, t < j ∧ j < eps.length ∧ eps[j]? = some tr_j ∧
        sample_achieved_goal env .FUTURE eps t r =
          .ok (env.convert_obs_to_dict tr_j.obs).achieved_goal) ∧
    (∀ (env : GoalEnv Obs O G R) (rand : Nat → Nat → Nat) (n : Nat)
      (all rest : List (Transition Obs A R)) (tr : Transition Obs A R),
      eager_write_trace env rand .FUTURE n all (tr :: rest) (all.length - 1) =
        ([tr], none)) ∧
    (∀ (L t : Nat) (u : ℚ), 0 ≤ u → u < 1 → t < L →
      t + 1 ≤ lazy_future_t L t u ∧ lazy_future_t L t u ≤ L) ∧
    (∀ (L : Nat) (u : ℚ), 0 ≤ u → u < 1 →
      lazy_timestep L u ≤ L ∧ (1 ≤ L → 1 ≤ lazy_timestep L u)) := by
  refine ⟨sample_achieved_goal_future_ok, ?_, ?_, ?_⟩
  · intro env rand n all rest tr
    simp [eager_write_trace]
  · intro L t u h0 h1 hlt
    have := lazy_future_offset_lt L t u h0 h1 hlt
    unfold lazy_future_t
    omega
  · intro L u h0 h1
    exact ⟨lazy_timestep_le L u h0 h1, fun hL => lazy_timestep_pos L u h1 hL⟩

/-- C1 counterexample: in lazy mode with a stored one-step episode (L = 1, in a
buffer with max_episode_len 2), the timestep draw returns t = 1 = L, future_t
is 2, which does not lie in [t + 1, L] = [2, 1]; and the relabel-eligible
row's substituted desired goal is the zero padding of column 2, which is not
the achieved_goal of any transition of the episode (they are 5 and 7), let
alone of one strictly later than the source transition. -/
theorem C1_counterexample :
    lazy_timestep slotC1.n_steps (1/2) = 1 ∧
    lazy_future_t slotC1.n_steps 1 0 = 2 ∧
    ¬ (lazy_future_t slotC1.n_steps 1 0 ≤ 1) ∧
    ((0:ℚ) < 1 - 1 / (1 + (4:ℚ))) ∧
    (envC.convert_obs_to_dict
      (get_sample_row envC 4 slotC1 (1/2) 0 0).obs).desired_goal = 0 ∧
    ∀ o ∈ slotC1.observations.take (slotC1.n_steps + 1),
      (envC.convert_obs_to_dict o).achieved_goal ≠ 0 := by
  have hft : lazy_future_t slotC1.n_steps 1 0 = 2 := by
    show lazy_future_t 1 1 0 = 2
    unfold lazy_future_t lazy_future_offset
    norm_num
  refine ⟨?_, hft, by rw [hft]; omega, by norm_num, ?_, by decide⟩
  · show lazy_timestep 1 (1/2) = 1
    unfold lazy_timestep
    norm_num
  · norm_num [get_sample_row, slotC1, envC, lazy_timestep, lazy_future_t,
      lazy_future_offset]

/-- Witness for C1 at concrete inputs. -/
theorem C1_witness :
    (∃ j tr_j, 0 < j ∧ j < 2 ∧
      ([trC, trC2] : List (Transition ObsC Int Int))[j]? = some tr_j ∧
      sample_achieved_goal envC .FUTURE [trC, trC2] 0 0 =
        .ok (envC.convert_obs_to_dict tr_j.obs).achieved_goal) ∧
    eager_write_trace envC (fun _ _ => 0) .FUTURE 4 [trC, trC2] [trC2] 1 =
      ([trC2], none) ∧
    (1 + 1 ≤ lazy_future_t 3 1 (1/2) ∧ lazy_future_t 3 1 (1/2) ≤ 3) ∧
    (lazy_timestep 3 (1/2) ≤ 3 ∧ 1 ≤ lazy_timestep 3 (1/2)) := by
  obtain ⟨h1, h2, h3, h4⟩ := @C1_future_goal_validity ObsC Int Int Int Int
  have hq0 : (0:ℚ) ≤ 1/2 := by norm_num
  have hq1 : (1:ℚ)/2 < 1 := by norm_num
  refine ⟨?_, h2 envC (fun _ _ => 0) 4 [trC, trC2] [] trC2, h3 3 1 (1/2) hq0 hq1 (by omega), ?_⟩
  · obtain ⟨j, tr_j, ha, hb, hc, hd⟩ := h1 envC [trC, trC2] 0 0 (by decide)
    exact ⟨j, tr_j, ha, by simpa using hb, hc, hd⟩
  · obtain ⟨ha, hb⟩ := h4 3 (1/2) hq0 hq1
    exact ⟨ha, hb (by omega)⟩

/-- C2: flushing one episode of length L in eager mode with strategy FUTURE
raises nothing and writes exactly (L - 1) * n_sampled_goal + L transitions:
the trace of _add_transition calls the loop of _store_episode performs (which
store_episode folds over the buffer verbatim) has that length. -/
theorem C2_eager_count (env : GoalEnv Obs O G R) (rand : Nat → Nat → Nat)
    (n : Nat) (eps : List (Transition Obs A R)) (h : eps ≠ []) :
    (eager_write_trace env rand .FUTURE n eps eps 0).2 = none ∧
    (eager_write_trace env rand .FUTURE n eps eps 0).1.length =
      (eps.length - 1) * n + eps.length ∧
    ∀ s : FlatState Obs A R, s.goal_selection_strategy = .FUTURE →
      s.n_sampled_goal = n → s.episode_transitions = eps →
      (store_episode env rand s).2 = none := by
  obtain ⟨he, hl⟩ := eager_trace_future_count env rand n eps eps 0 h
    (by omega)
  refine ⟨he, by omega, ?_⟩
  intro s hstrat hn hep
  unfold store_episode
  rw [hstrat, hn, hep]
  exact he

/-- Witness for C2: a two-step episode with n_sampled_goal = 4 stores
(2 - 1) * 4 + 2 = 6 transitions and raises nothing. -/
theorem C2_witness :
    (eager_write_trace envC (fun _ _ => 0) .FUTURE 4 [trC, trC2] [trC, trC2] 0).2 = none ∧
    (eager_write_trace envC (fun _ _ => 0) .FUTURE 4 [trC, trC2] [trC, trC2] 0).1.length =
      (2 - 1) * 4 + 2 := by
  obtain ⟨ha, hb, -⟩ := C2_eager_count envC (fun _ _ => 0) 4 [trC, trC2] (by decide)
  exact ⟨ha, by simpa using hb⟩

/-- C3 (amended): ring-buffer invariant in both storage modes, for a buffer of
capacity C (buffer_size in flat mode, buffer_size / max_episode_len in
per-episode mode) after k successful writes: pos = k mod C (hence pos is in
[0, C) and points to the next slot to write); full = (k ≥ C), not (k > C) — at
exactly k = C writes the code wraps pos and sets full, which the claim's
"full = false for k ≤ C" misses (see the counterexample); for k ≤ C, writes
0..k-1 occupy slots 0..k-1 and the remaining slots keep their initial content;
for k ≥ C, slot i holds the content of the unique write j among the most
recent C writes (k - C ≤ j < k) with j ≡ i (mod C).  In per-episode mode a
slot holds a write in the sense of EpSlot.holds: the recorded n_steps is the
episode's true length and the row prefixes up to it are the episode's data. -/
theorem C3_ring_invariant :
    (∀ (C : Nat) (strategy : GoalSelectionStrategy) (n : Nat)
      (z : Transition Obs A R) (ws : List (Transition Obs A R)), 0 < C →
      (ws.foldl FlatState.add_transition (FlatState.init C strategy n z)).pos = ws.length % C ∧
      (ws.foldl FlatState.add_transition (FlatState.init C strategy n z)).pos < C ∧
      (ws.foldl FlatState.add_transition (FlatState.init C strategy n z)).full =
        decide (C ≤ ws.length) ∧
      (ws.length ≤ C → ∀ i < ws.length,
        (ws.foldl FlatState.add_transition (FlatState.init C strategy n z)).transitions[i]? = ws[i]?) ∧
      (ws.length ≤ C → ∀ i, ws.length ≤ i → i < C →
        (ws.foldl FlatState.add_transition (FlatState.init C strategy n z)).transitions[i]? = some z) ∧
      (C ≤ ws.length → ∀ i < C, ∃ j, ws.length - C ≤ j ∧ j < ws.length ∧ j % C = i ∧
        (ws.foldl FlatState.add_transition (FlatState.init C strategy n z)).transitions[i]? = ws[j]?)) ∧
    (∀ (B M : Nat) (strategy : GoalSelectionStrategy) (n : Nat)
      (zObs : Obs) (zA : A) (zR : R) (ws : List (EpWrite Obs A R)),
      0 < B / M → (∀ w ∈ ws, w.WF M) →
      (ws.foldl EpState.add_write (EpState.init B M strategy n zObs zA zR)).pos = ws.length % (B / M) ∧
      (ws.foldl EpState.add_write (EpState.init B M strategy n zObs zA zR)).pos < B / M ∧
      (ws.foldl EpState.add_write (EpState.init B M strategy n zObs zA zR)).full =
        decide (B / M ≤ ws.length) ∧
      (ws.length ≤ B / M → ∀ i < ws.length,
        ∃ (slot : EpSlot Obs A R) (w2 : EpWrite Obs A R),
          (ws.foldl EpState.add_write (EpState.init B M strategy n zObs zA zR)).slots[i]? = some slot ∧
          ws[i]? = some w2 ∧ slot.holds w2) ∧
      (ws.length ≤ B / M → ∀ i, ws.length ≤ i → i < B / M →
        (ws.foldl EpState.add_write (EpState.init B M strategy n zObs zA zR)).slots[i]? =
          some (EpSlot.init M zObs zA zR)) ∧
      (B / M ≤ ws.length → ∀ i < B / M,
        ∃ j, ws.length - (B / M) ≤ j ∧ j < ws.length ∧ j % (B / M) = i ∧
        ∃ (slot : EpSlot Obs A R) (w2 : EpWrite Obs A R),
          (ws.foldl EpState.add_write (EpState.init B M strategy n zObs zA zR)).slots[i]? = some slot ∧
          ws[j]? = some w2 ∧ slot.holds w2)) := by
  constructor
  · intro C strategy n z ws hC
    obtain ⟨-, -, hp, hf, hs⟩ := flat_fold_invariant C hC strategy n z ws
    refine ⟨hp, by rw [hp]; exact Nat.mod_lt _ hC, hf, ?_, ?_, ?_⟩
    · intro hk i hi
      rcases hs i (by omega) with ⟨hnone, -⟩ | ⟨j, hj, hjc, -, hval⟩
      · exact absurd (Nat.mod_eq_of_lt (by omega)) (hnone i hi)
      · have : j = i := by
          rw [Nat.mod_eq_of_lt (by omega)] at hjc
          exact hjc
        subst this
        exact hval
    · intro hk i hki hic
      rcases hs i hic with ⟨-, hval⟩ | ⟨j, hj, hjc, -, -⟩
      · exact hval
      · rw [Nat.mod_eq_of_lt (by omega)] at hjc
        omega
    · intro hk i hi
      rcases hs i hi with ⟨hnone, -⟩ | ⟨j, hj, hjc, hmax, hval⟩
      · exact absurd (Nat.mod_eq_of_lt hi) (hnone i (by omega))
      · refine ⟨j, ?_, hj, hjc, hval⟩
        by_contra hlt
        refine hmax (j + C) (by omega) (by omega) ?_
        rw [Nat.add_mod_right]
        exact hjc
  · intro B M strategy n zObs zA zR ws hC hWF
    obtain ⟨-, -, -, hp, hf, -, hs⟩ := ep_fold_invariant B M hC strategy n zObs zA zR ws hWF
    refine ⟨hp, by rw [hp]; exact Nat.mod_lt _ hC, hf, ?_, ?_, ?_⟩
    · intro hk i hi
      rcases hs i (by omega) with ⟨hnone, -⟩ | ⟨j, hj, hjc, -, slot, w2, hval, hw2, hh⟩
      · exact absurd (Nat.mod_eq_of_lt (by omega)) (hnone i hi)
      · have : j = i := by
          rw [Nat.mod_eq_of_lt (by omega)] at hjc
          exact hjc
        subst this
        exact ⟨slot, w2, hval, hw2, hh⟩
    · intro hk i hki hic
      rcases hs i hic with ⟨-, hval⟩ | ⟨j, hj, hjc, -, -⟩
      · exact hval
      · rw [Nat.mod_eq_of_lt (by omega)] at hjc
        omega
    · intro hk i hi
      rcases hs i hi with ⟨hnone, -⟩ | ⟨j, hj, hjc, hmax, slot, w2, hval, hw2, hh⟩
      · exact absurd (Nat.mod_eq_of_lt hi) (hnone i (by omega))
      · refine ⟨j, ?_, hj, hjc, slot, w2, hval, hw2, hh⟩
        by_contra hlt
        refine hmax (j + B / M) (by omega) (by omega) ?_
        rw [Nat.add_mod_right]
        exact hjc

/-- C3 counterexample: with flat capacity C = 2 and k = 2 = C writes the code
sets full = true, while the claim asserts full = false for every k ≤ C. -/
theorem C3_counterexample :
    ([trC, trC2].foldl FlatState.add_transition
      (FlatState.init 2 .FUTURE 4 zC)).full = true ∧
    ([trC, trC2] : List (Transition ObsC Int Int)).length ≤ 2 := by
  exact ⟨rfl, by decide⟩

/-- Witness for C3: three flat writes into capacity 3 and one well-formed
episode write into episode capacity 2. -/
theorem C3_witness :
    (([trC, trC2, trC].foldl FlatState.add_transition
      (FlatState.init 3 .FUTURE 4 zC)).pos = ([trC, trC2, trC]).length % 3) ∧
    (([epWriteC].foldl EpState.add_write
      (EpState.init 4 2 .FUTURE 4 ⟨0, 0, 0⟩ 0 0)).pos = ([epWriteC]).length % (4 / 2)) := by
  constructor
  · exact ((@C3_ring_invariant ObsC Int Int).1 3 .FUTURE 4 zC
      [trC, trC2, trC] (by omega)).1
  · exact ((@C3_ring_invariant ObsC Int Int).2 4 2 .FUTURE 4 ⟨0, 0, 0⟩ 0 0
      [epWriteC] (by decide) (by intro w hw; simp at hw; subst hw; decide)).1

/-- C4: reward consistency of relabeled transitions, for any goal environment
whose dict-to-obs converter is a section of obs-to-dict (spec: the two are
inverse).  Eager mode: every synthetic transition built by the relabeling loop
stores reward = compute_reward(achieved_goal(next_obs), substituted goal).
Lazy mode: every relabel-eligible sampled row (u_her < future_p) returns
reward = compute_reward(achieved_goal(next_obs), desired_goal(next_obs)), and
the next observation's desired_goal is the substituted one — the achieved
goal read at column future_t.  The lazy conjunct assumes only that the row's
two column reads (t + 1 for the next observation and reward, future_t for the
substituted goal) land inside the slot's observation row — exactly the draws
on which the source's numpy indexing does not raise IndexError.  This covers
full-length episodes (n_steps = max_episode_len, where the row has
max_episode_len + 1 columns and any drawn t < n_steps is in range) as well as
shorter episodes with any drawn t ≤ n_steps. -/
theorem C4_reward_consistency [Inhabited Obs] [Inhabited O] [Inhabited G]
    [Inhabited A] :
    (∀ (env : GoalEnv Obs O G R),
      (∀ d, env.convert_obs_to_dict (env.convert_dict_to_obs d) = d) →
      ∀ (tr : Transition Obs A R) (goal : G),
        (make_her_transition env tr goal).reward =
          env.compute_reward
            (env.convert_obs_to_dict (make_her_transition env tr goal).next_obs).achieved_goal
            goal) ∧
    (∀ (env : GoalEnv Obs O G R),
      (∀ d, env.convert_obs_to_dict (env.convert_dict_to_obs d) = d) →
      ∀ (n : Nat) (slot : EpSlot Obs A R) (u_t u_her u_off : ℚ),
        u_her < 1 - 1 / (1 + (n : ℚ)) →
        lazy_timestep slot.n_steps u_t + 1 < slot.observations.length →
        lazy_future_t slot.n_steps (lazy_timestep slot.n_steps u_t) u_off <
          slot.observations.length →
        (get_sample_row env n slot u_t u_her u_off).reward =
          env.compute_reward
            (env.convert_obs_to_dict (get_sample_row env n slot u_t u_her u_off).next_obs).achieved_goal
            (env.convert_obs_to_dict (get_sample_row env n slot u_t u_her u_off).next_obs).desired_goal ∧
        (env.convert_obs_to_dict (get_sample_row env n slot u_t u_her u_off).next_obs).desired_goal =
          (env.convert_obs_to_dict (slot.observations[lazy_future_t slot.n_steps
            (lazy_timestep slot.n_steps u_t) u_off]!)).achieved_goal) := by
  constructor
  · intro env hinv tr goal
    simp [make_her_transition, hinv]
  · intro env hinv n slot u_t u_her u_off hher ht1 hft
    obtain ⟨hno, hrw⟩ := get_sample_row_her env n slot u_t u_her u_off hher ht1 hft
    rw [hno, hinv]
    exact ⟨hrw, rfl⟩

/-- Witness for C4: the eager conjunct at a concrete transition and goal, and
the lazy conjunct both at the shorter-than-max episode slot (slotC1, one step
in a two-step buffer) and at the full-length episode slot (slotC5, two steps
in a two-step buffer, n_steps = max_episode_len). -/
theorem C4_witness :
    ((make_her_transition envC trC 9).reward =
      envC.compute_reward
        (envC.convert_obs_to_dict (make_her_transition envC trC 9).next_obs).achieved_goal
        9) ∧
    ((get_sample_row envC 4 slotC1 (1/2) 0 0).reward =
      envC.compute_reward
        (envC.convert_obs_to_dict (get_sample_row envC 4 slotC1 (1/2) 0 0).next_obs).achieved_goal
        (envC.convert_obs_to_dict (get_sample_row envC 4 slotC1 (1/2) 0 0).next_obs).desired_goal) ∧
    ((get_sample_row envC 4 slotC5 (1/2) 0 0).reward =
      envC.compute_reward
        (envC.convert_obs_to_dict (get_sample_row envC 4 slotC5 (1/2) 0 0).next_obs).achieved_goal
        (envC.convert_obs_to_dict (get_sample_row envC 4 slotC5 (1/2) 0 0).next_obs).desired_goal) := by
  obtain ⟨he, hl⟩ := @C4_reward_consistency ObsC Int Int Int Int _ _ _ _
  have hinv : ∀ d, envC.convert_obs_to_dict (envC.convert_dict_to_obs d) = d :=
    fun d => rfl
  have ht1 : lazy_timestep slotC1.n_steps (1/2) = 1 := by
    show lazy_timestep 1 (1/2) = 1
    unfold lazy_timestep
    norm_num
  have hf1 : lazy_future_t slotC1.n_steps 1 0 = 2 := by
    show lazy_future_t 1 1 0 = 2
    unfold lazy_future_t lazy_future_offset
    norm_num
  have ht5 : lazy_timestep slotC5.n_steps (1/2) = 1 := by
    show lazy_timestep 2 (1/2) = 1
    unfold lazy_timestep
    norm_num
  have hf5 : lazy_future_t slotC5.n_steps 1 0 = 2 := by
    show lazy_future_t 2 1 0 = 2
    unfold lazy_future_t lazy_future_offset
    norm_num
  refine ⟨he envC hinv trC 9, ?_, ?_⟩
  · exact (hl envC hinv 4 slotC1 (1/2) 0 0 (by norm_num)
      (by rw [ht1]; decide) (by rw [ht1, hf1]; decide)).1
  · exact (hl envC hinv 4 slotC5 (1/2) 0 0 (by norm_num)
      (by rw [ht5]; decide) (by rw [ht5, hf5]; decide)).1

/-- C5 (amended): every relabeled transition constructed by the eager
relabeling loop has done = false regardless of the source transition's flag;
in lazy mode, however, the returned done of a sampled row is the stored done
at the sampled timestep — the code never forces it to false for
relabel-eligible rows (the claim's lazy half fails, see the counterexample). -/
theorem C5_relabeled_done [Inhabited Obs] [Inhabited O] [Inhabited G]
    [Inhabited A] :
    (∀ (env : GoalEnv Obs O G R) (tr : Transition Obs A R) (goal : G),
      (make_her_transition env tr goal).done = false) ∧
    (∀ (env : GoalEnv Obs O G R) (n : Nat) (slot : EpSlot Obs A R)
      (u_t u_her u_off : ℚ),
      (get_sample_row env n slot u_t u_her u_off).done =
        slot.dones[lazy_timestep slot.n_steps u_t]!) :=
  ⟨fun _ _ _ => rfl, fun _ _ _ _ _ _ => rfl⟩

/-- C5 counterexample: a lazy-mode relabel-eligible row (u_her = 0 < future_p =
4/5) drawn at the final timestep of the episode stored in slotC5 has its
desired goal substituted (3 becomes 9) and yet keeps done = true — the claim
says every relabeled row has done = false. -/
theorem C5_counterexample :
    ((0:ℚ) < 1 - 1 / (1 + (4:ℚ))) ∧
    (get_sample_row envC 4 slotC5 (1/2) 0 0).done = true ∧
    (envC.convert_obs_to_dict
      (get_sample_row envC 4 slotC5 (1/2) 0 0).obs).desired_goal = 9 := by
  refine ⟨by norm_num, ?_, ?_⟩
  · norm_num [get_sample_row, slotC5, envC, lazy_timestep, lazy_future_t,
      lazy_future_offset]
  · norm_num [get_sample_row, slotC5, envC, lazy_timestep, lazy_future_t,
      lazy_future_offset]

/-- C6 (amended): in the lazy sampler every strategy other than FUTURE raises
NotImplementedError at the dispatch of _get_samples; but in eager store-time
relabeling only RANDOM raises NotImplementedError — FINAL (the last
transition's achieved goal) and EPISODE (a uniformly drawn transition's
achieved goal) are implemented by _sample_achieved_goal and succeed. -/
theorem C6_strategy_not_implemented :
    (∀ n : Nat, get_samples_future_p .FINAL n = .error "NotImplementedError" ∧
      get_samples_future_p .EPISODE n = .error "NotImplementedError" ∧
      get_samples_future_p .RANDOM n = .error "NotImplementedError") ∧
    (∀ (env : GoalEnv Obs O G R) (eps : List (Transition Obs A R)) (t r : Nat),
      sample_achieved_goal env .RANDOM eps t r = .error "NotImplementedError") ∧
    (∀ (env : GoalEnv Obs O G R) (eps : List (Transition Obs A R)) (t r : Nat)
      (tr : Transition Obs A R), eps.getLast? = some tr →
      sample_achieved_goal env .FINAL eps t r =
        .ok (env.convert_obs_to_dict tr.obs).achieved_goal) ∧
    (∀ (env : GoalEnv Obs O G R) (eps : List (Transition Obs A R)) (t r : Nat),
      eps ≠ [] →
      ∃ j tr_j, j < eps.length ∧ eps[j]? = some tr_j ∧
        sample_achieved_goal env .EPISODE eps t r =
          .ok (env.convert_obs_to_dict tr_j.obs).achieved_goal) := by
  refine ⟨fun n => ⟨rfl, rfl, rfl⟩, fun env eps t r => rfl, ?_, ?_⟩
  · intro env eps t r tr hlast
    simp [sample_achieved_goal, hlast]
  · intro env eps t r hne
    have hpos : 0 < eps.length := List.length_pos.mpr hne
    have hidx : r % eps.length < eps.length := Nat.mod_lt _ hpos
    obtain ⟨a, ha⟩ : ∃ a, eps[r % eps.length]? = some a :=
      ⟨_, List.getElem?_eq_getElem hidx⟩
    exact ⟨r % eps.length, a, hidx, ha, by simp [sample_achieved_goal, hpos, ha]⟩

/-- C6 counterexample: eager store-time relabeling with strategy FINAL (and
EPISODE) succeeds — it does not fail with a not-implemented signal as the
claim asserts for every non-FUTURE strategy in both modes. -/
theorem C6_counterexample :
    sample_achieved_goal envC .FINAL [trC, trC2] 0 0 = .ok 7 ∧
    sample_achieved_goal envC .EPISODE [trC, trC2] 0 1 = .ok 7 ∧
    sample_achieved_goal envC .FINAL [trC, trC2] 0 0 ≠
      .error "NotImplementedError" :=
  ⟨rfl, rfl, fun h => Except.noConfusion h⟩

/-- Witness for C6 at concrete inputs. -/
theorem C6_witness :
    get_samples_future_p .FINAL 4 = .error "NotImplementedError" ∧
    sample_achieved_goal envC .RANDOM [trC] 0 0 = .error "NotImplementedError" ∧
    sample_achieved_goal envC .FINAL [trC, trC2] 1 5 =
      .ok (envC.convert_obs_to_dict trC2.obs).achieved_goal ∧
    ∃ j tr_j, j < 2 ∧
      ([trC, trC2] : List (Transition ObsC Int Int))[j]? = some tr_j ∧
      sample_achieved_goal envC .EPISODE [trC, trC2] 0 3 =
        .ok (envC.convert_obs_to_dict tr_j.obs).achieved_goal := by
  obtain ⟨ha, hb, hc, hd⟩ := @C6_strategy_not_implemented ObsC Int Int Int Int
  refine ⟨(ha 4).1, hb envC [trC] 0 0, hc envC [trC, trC2] 1 5 trC2 rfl, ?_⟩
  obtain ⟨j, tr_j, h1, h2, h3⟩ := hd envC [trC, trC2] 0 3 (by decide)
  exact ⟨j, tr_j, by simpa using h1, h2, h3⟩

/-- C7: a per-episode store call whose observation argument has fewer than 2
dimensions fails with the explicit "obs needs to be an episode of
observations" signal, and the returned state is literally the prior state —
pos, full, n_steps and every storage slot are unchanged, since the shape
guard precedes every mutation. -/
theorem C7_malformed_episode (s : EpState Obs A R) (obs : NpArray Obs)
    (next_obs : List Obs) (action : List A) (reward : List R)
    (done : List Bool) (h : obs.ndim < 2) :
    s.add_transition obs next_obs action reward done =
      (s, some "obs needs to be an episode of observations") := by
  unfold EpState.add_transition
  rw [if_neg (by omega)]

/-- Witness for C7: storing np.array([]) (shape (0,), ndim 1) fails and leaves
the concrete buffer untouched. -/
theorem C7_witness :
    epStateC.add_transition badObsC [] [] [] [] =
      (epStateC, some "obs needs to be an episode of observations") :=
  C7_malformed_episode epStateC badObsC [] [] [] [] (by decide)

/-- C8: whenever sample's index draw succeeds, it returns exactly batch_size
indices, all of them below the upper bound — the full capacity (buffer_size
per transition in eager mode, buffer_size / max_episode_len episodes in lazy
mode) when full, and pos (the count of written slots before wraparound)
otherwise — so no unwritten slot is ever addressed. -/
theorem C8_sample_bound (buffer_size max_episode_len : Nat)
    (add_her_while_sampling full : Bool) (pos batch_size : Nat)
    (rand : Nat → Nat) (inds : List Nat)
    (h : sample_batch_inds buffer_size max_episode_len add_her_while_sampling
      full pos batch_size rand = .ok inds) :
    inds.length = batch_size ∧
    ∀ x ∈ inds, x < (if full then (if add_her_while_sampling then
      buffer_size / max_episode_len else buffer_size) else pos) := by
  simp only [sample_batch_inds] at h
  by_cases h0 : (if full then (if add_her_while_sampling then
      buffer_size / max_episode_len else buffer_size) else pos) = 0
  · rw [if_pos h0] at h
    exact absurd h (by simp)
  · rw [if_neg h0] at h
    have hinds : inds = (List.range batch_size).map (fun i => rand i %
        (if full then (if add_her_while_sampling then
          buffer_size / max_episode_len else buffer_size) else pos)) :=
      (Except.ok.inj h).symm
    subst hinds
    refine ⟨by simp, ?_⟩
    intro x hx
    simp only [List.mem_map, List.mem_range] at hx
    obtain ⟨i, hi, rfl⟩ := hx
    exact Nat.mod_lt _ (by omega)

/-- Witness for C8: an eager-mode, not-full buffer with pos = 3 sampled with
batch size 2. -/
theorem C8_witness :
    (([0 % 3, 1 % 3] : List Nat).length = 2) ∧
    ∀ x ∈ ([0 % 3, 1 % 3] : List Nat), x < (if (false : Bool) then
      (if (false : Bool) then 10 / 2 else 10) else 3) :=
  C8_sample_bound 10 2 false false 3 2 (fun i => i) [0 % 3, 1 % 3] rfl

/-- C9: generating and storing the relabeled copies during an eager flush never
mutates the source episode: the accumulator list the loop reads (the episode's
transitions, with all five fields of each) is identical before and after
store_episode.  In this embedding the relabeled transitions are built by value
from the source transition (copy.deepcopy is value copy), and the buffer
writes touch only the storage arrays. -/
theorem C9_no_source_mutation (env : GoalEnv Obs O G R)
    (rand : Nat → Nat → Nat) (s : FlatState Obs A R) :
    (store_episode env rand s).1.episode_transitions = s.episode_transitions := by
  unfold store_episode
  exact foldl_add_transition_episode s _

/-- C10: in eager mode with strategy RANDOM and n_sampled_goal ≥ 1, completing
an episode via add with done = true stores the episode's first raw transition
(the flat write at the old pos, advancing and possibly wrapping pos and
updating full) before _sample_achieved_goal's NotImplementedError propagates
out of add; the failure skips the accumulator reset, so episode_transitions
still holds the whole episode — the failure is not atomic. -/
theorem C10_random_partial_store (env : GoalEnv Obs O G R)
    (rand : Nat → Nat → Nat) (s : FlatState Obs A R) (obs next_obs : Obs)
    (action : A) (reward : R) (hstrat : s.goal_selection_strategy = .RANDOM)
    (hn : 1 ≤ s.n_sampled_goal) :
    (FlatState.add env rand s obs next_obs action reward true).2 =
      some "NotImplementedError" ∧
    (FlatState.add env rand s obs next_obs action reward true).1.episode_transitions =
      s.episode_transitions ++ [⟨obs, next_obs, action, reward, true⟩] ∧
    (∃ first rest,
      s.episode_transitions ++ [⟨obs, next_obs, action, reward, true⟩] = first :: rest ∧
      (FlatState.add env rand s obs next_obs action reward true).1.transitions =
        s.transitions.set s.pos first) ∧
    (FlatState.add env rand s obs next_obs action reward true).1.pos =
      (if s.pos + 1 = s.buffer_size then 0 else s.pos + 1) ∧
    (FlatState.add env rand s obs next_obs action reward true).1.full =
      (s.full || decide (s.pos + 1 = s.buffer_size)) := by
  obtain ⟨first, rest, hsplit⟩ : ∃ f r,
      s.episode_transitions ++ [(⟨obs, next_obs, action, reward, true⟩ :
        Transition Obs A R)] = f :: r := by
    cases he : s.episode_transitions with
    | nil => exact ⟨⟨obs, next_obs, action, reward, true⟩, [], rfl⟩
    | cons a l =>
        exact ⟨a, l ++ [(⟨obs, next_obs, action, reward, true⟩ :
          Transition Obs A R)], by simp⟩
  have hstore : store_episode env rand { s with episode_transitions :=
      s.episode_transitions ++ [⟨obs, next_obs, action, reward, true⟩] } =
      (({ s with episode_transitions :=
        s.episode_transitions ++ [⟨obs, next_obs, action, reward, true⟩] } :
          FlatState Obs A R).add_transition first, some "NotImplementedError") := by
    unfold store_episode
    rw [show ({ s with episode_transitions :=
      s.episode_transitions ++ [⟨obs, next_obs, action, reward, true⟩] } :
        FlatState Obs A R).goal_selection_strategy = GoalSelectionStrategy.RANDOM
      from hstrat]
    rw [show ({ s with episode_transitions :=
      s.episode_transitions ++ [⟨obs, next_obs, action, reward, true⟩] } :
        FlatState Obs A R).episode_transitions = first :: rest from hsplit]
    rw [eager_trace_random env rand _ hn _ first rest 0]
    exact rfl
  have hadd : FlatState.add env rand s obs next_obs action reward true =
      (({ s with episode_transitions :=
        s.episode_transitions ++ [⟨obs, next_obs, action, reward, true⟩] } :
          FlatState Obs A R).add_transition first, some "NotImplementedError") := by
    unfold FlatState.add
    rw [if_pos rfl]
    rw [hstore]
  rw [hadd, add_transition_eq]
  exact ⟨rfl, hsplit.symm ▸ rfl, ⟨first, rest, hsplit, rfl⟩, rfl, rfl⟩

/-- Witness for C10: a fresh capacity-3 buffer configured with strategy RANDOM
and n_sampled_goal = 4, fed one done = true transition. -/
theorem C10_witness :
    (FlatState.add envC (fun _ _ => 0) (FlatState.init 3 .RANDOM 4 zC)
      ⟨0, 5, 3⟩ ⟨0, 7, 3⟩ 11 0 true).2 = some "NotImplementedError" ∧
    (FlatState.add envC (fun _ _ => 0) (FlatState.init 3 .RANDOM 4 zC)
      ⟨0, 5, 3⟩ ⟨0, 7, 3⟩ 11 0 true).1.episode_transitions =
      [⟨⟨0, 5, 3⟩, ⟨0, 7, 3⟩, 11, 0, true⟩] := by
  obtain ⟨ha, hb, -⟩ := C10_random_partial_store envC (fun _ _ => 0)
    (FlatState.init 3 .RANDOM 4 zC) ⟨0, 5, 3⟩ ⟨0, 7, 3⟩ 11 0 rfl (by decide)
  exact ⟨ha, by simpa [FlatState.init] using hb⟩

end HER
